import Mathlib

/-!
A shallow embedding of `camel/terminator/response_terminator.py`
(`ResponseWordsTerminator`): a stateful termination predicate that counts,
per watched word, the messages containing that word, and latches a
termination decision once the configured thresholds are reached under the
`ANY`/`ALL` aggregation mode.

Python dicts are modelled as insertion-ordered association lists with
distinct keys; raised `ValueError`s are modelled with `Except.error`
carrying the exact message string; the in-place mutation of the instance is
modelled by returning the post-call state alongside the return value.
-/

/-- A message, exposing only the `content` field that the terminator reads. -/
structure BaseMessage where
  content : String
  deriving DecidableEq, Repr

/-- Modelled from the spec: the termination-mode enumeration
(`TerminationMode` from `camel.typing`, whose source is not part of the
examined file) has at least the values `ANY` and `ALL`; any other value of
the broader enumeration is represented by `OTHER s`, where `s` stands for
that value's display string. -/
inductive TerminationMode where
  | ANY
  | ALL
  | OTHER (s : String)
  deriving DecidableEq, Repr

/-- `prefixCheck n h` decides whether `n` is a leading segment of `h`. -/
def prefixCheck : List Char → List Char → Bool
  | [], _ => true
  | _ :: _, [] => false
  | a :: n, b :: h => a == b && prefixCheck n h

/-- `containsSub n h` decides whether `n` occurs contiguously inside `h`. -/
def containsSub (n : List Char) : List Char → Bool
  | [] => n.isEmpty
  | c :: h => prefixCheck n (c :: h) || containsSub n h

/-- The Python substring test `needle in haystack` on strings. -/
def strContains (haystack needle : String) : Bool :=
  containsSub needle.data haystack.data

/-- Python `str.lower()`: lower-case every character. -/
def lowerStr (s : String) : String :=
  ⟨s.data.map Char.toLower⟩

/-- Lines 59–65: the per-(word, message) match test.
`special_word = word if case_sensitive else word.lower()`; the content is
`message.content`, lowered when case-insensitive; then `special_word in
content`. -/
def containsWord (cs : Bool) (word : String) (m : BaseMessage) : Bool :=
  let special := if cs then word else lowerStr word
  let content := if cs then m.content else lowerStr m.content
  strContains content special

/-- The mutable state of a `ResponseWordsTerminator` instance.
`words_dict` maps each watched word to its configured (Python `int`)
threshold; `word_count` is `_word_count_dict`, a `defaultdict(int)` holding
one entry per word that has been incremented at least once; `terminated` and
`termination_reason` are the latch fields initialised by the base class. -/
structure TerminatorState where
  words_dict : List (String × Int)
  case_sensitive : Bool
  mode : TerminationMode
  word_count : List (String × Nat)
  terminated : Bool
  termination_reason : Option String
  deriving DecidableEq, Repr

/-- `self._word_count_dict[word] += 1` on a `defaultdict(int)`: increment
the entry in place when present, otherwise insert the word at the end with
count `0 + 1 = 1`. -/
def bump : List (String × Nat) → String → List (String × Nat)
  | [], w => [(w, 1)]
  | q :: d, w => if q.1 = w then (q.1, q.2 + 1) :: d else q :: bump d w

/-- Lines 60–66, the inner loop: for each message in order, if the
(normalised) word occurs in the (normalised) content, increment the word's
running counter. -/
def updateForWord (cs : Bool) (w : String) :
    List BaseMessage → List (String × Nat) → List (String × Nat)
  | [], d => d
  | m :: ms, d => updateForWord cs w ms (if containsWord cs w m then bump d w else d)

/-- Lines 58–66, the outer loop over the watched words (in `words_dict`
insertion order). -/
def updateCounts (cs : Bool) (msgs : List BaseMessage) :
    List (String × Int) → List (String × Nat) → List (String × Nat)
  | [], d => d
  | p :: ps, d => updateCounts cs msgs ps (updateForWord cs p.1 msgs d)

/-- Ordered-dict lookup: `d[w]` when present. -/
def lookupDict : List (String × Int) → String → Option Int
  | [], _ => none
  | p :: d, w => if p.1 = w then some p.2 else lookupDict d w

/-- The running count of a word: the stored entry, or the `defaultdict`
default `0` when the word has never been incremented. -/
def countOf : List (String × Nat) → String → Nat
  | [], _ => 0
  | q :: d, w => if q.1 = w then q.2 else countOf d w

/-- Lines 73–75: the per-word termination reason string. -/
def reasonStr (word : String) (value : Nat) (threshold : Int) : String :=
  "Word `" ++ word ++ "` appears " ++ toString value ++
    " times in response which has reached termination threshold " ++
    toString threshold ++ "."

/-- Lines 68–76: walk the (already updated) running-counter dict in
insertion order and collect the reason string of every word whose counter
has reached its threshold.  `num_reached` always equals the length of this
list, since the Python loop increments the counter and appends a reason
together.  (A counter entry absent from `words_dict` would raise `KeyError`
in Python; such a state is unreachable — see `StateInv` — and is skipped here.) -/
def reachedReasons (words : List (String × Int)) : List (String × Nat) → List String
  | [] => []
  | q :: counts =>
    match lookupDict words q.1 with
    | some thr =>
      if thr ≤ (q.2 : Int) then reasonStr q.1 q.2 thr :: reachedReasons words counts
      else reachedReasons words counts
    | none => reachedReasons words counts

/-- `num_reached` of lines 68–72. -/
def numReached (words : List (String × Int)) (counts : List (String × Nat)) : Nat :=
  (reachedReasons words counts).length

/-- Python `sep.join(rs)`. -/
def joinSep (sep : String) : List String → String
  | [] => ""
  | [r] => r
  | r :: rs => r ++ sep ++ joinSep sep rs

/-- The loop of lines 38–42: the `ValueError` message for the first entry
whose threshold is not positive, if any. -/
def firstBadThreshold : List (String × Int) → Option String
  | [] => none
  | p :: words =>
    if p.2 ≤ 0 then
      some ("Threshold for word `" ++ p.1 ++ "` should be larger than 0, got `" ++
        toString p.2 ++ "`")
    else firstBadThreshold words

/-- Lines 35–42 (`_validate`): `none` when the configuration is accepted,
otherwise the message of the `ValueError` that is raised. -/
def validateMsg (words : List (String × Int)) : Option String :=
  if words.length = 0 then some "`words_dict` cannot be empty"
  else firstBadThreshold words

/-- The field initialisation of `__init__` (lines 28–32): empty counters,
latch `(false, none)`. -/
def initState (words : List (String × Int)) (cs : Bool) (m : TerminationMode) :
    TerminatorState :=
  { words_dict := words, case_sensitive := cs, mode := m,
    word_count := [], terminated := false, termination_reason := none }

/-- Lines 25–33 (`__init__`): set the fields, then `_validate`, which may
raise `ValueError`. -/
def mkTerminator (words : List (String × Int)) (cs : Bool) (m : TerminationMode) :
    Except String TerminatorState :=
  match validateMsg words with
  | some e => Except.error e
  | none => Except.ok (initState words cs m)

/-- Lines 44–88 (`is_terminated`): the returned pair is the Python return
value (`Except.error` for the raised unsupported-mode `ValueError`) together
with the post-call state of the mutated instance. -/
def isTerminated (s : TerminatorState) (messages : List BaseMessage) :
    Except String (Bool × Option String) × TerminatorState :=
  if s.terminated then
    (Except.ok (true, s.termination_reason), s)
  else
    let counts := updateCounts s.case_sensitive messages s.words_dict s.word_count
    let s1 : TerminatorState := { s with word_count := counts }
    match s.mode with
    | TerminationMode.ANY =>
      let s2 := if numReached s.words_dict counts > 0 then
          { s1 with terminated := true,
                    termination_reason := some (joinSep "\n" (reachedReasons s.words_dict counts)) }
        else s1
      (Except.ok (s2.terminated, s2.termination_reason), s2)
    | TerminationMode.ALL =>
      let s2 := if numReached s.words_dict counts ≥ s.words_dict.length then
          { s1 with terminated := true,
                    termination_reason := some (joinSep "\n" (reachedReasons s.words_dict counts)) }
        else s1
      (Except.ok (s2.terminated, s2.termination_reason), s2)
    | TerminationMode.OTHER str =>
      (Except.error ("Unsupported termination mode `" ++ str ++ "`"), s1)

/-- Lines 90–93 (`reset`): clear the latch and the running counters,
keeping the configuration. -/
def reset (s : TerminatorState) : TerminatorState :=
  { s with terminated := false, termination_reason := none, word_count := [] }

/-- The states reachable through the public interface: construction (from a
genuine dict, i.e. distinct keys), any `is_terminated` call (whether it
returns or raises), and `reset`. -/
inductive Reachable : TerminatorState → Prop where
  | init (w : List (String × Int)) (cs : Bool) (m : TerminationMode)
      (s : TerminatorState) (hw : (w.map Prod.fst).Nodup)
      (h : mkTerminator w cs m = Except.ok s) : Reachable s
  | step (s t : TerminatorState) (msgs : List BaseMessage)
      (r : Except String (Bool × Option String))
      (hs : Reachable s) (h : isTerminated s msgs = (r, t)) : Reachable t
  | rst (s : TerminatorState) (hs : Reachable s) : Reachable (reset s)

/-- Proof helper: the keys of the counter entries that have reached their
threshold, in counter-dict order (so `numReached` is its length). -/
def reachedKeys (words : List (String × Int)) : List (String × Nat) → List String
  | [] => []
  | q :: counts =>
    match lookupDict words q.1 with
    | some thr =>
      if thr ≤ (q.2 : Int) then q.1 :: reachedKeys words counts
      else reachedKeys words counts
    | none => reachedKeys words counts

/-- The invariant maintained by every reachable state: the configuration is
a validated dict, the counter dict is a dict over watched words, and the
latch is consistent — while not latched the reason is `none` and the
aggregation condition of the configured mode does not hold for the current
counters, and once latched the stored reason is a non-empty string. -/
structure StateInv (s : TerminatorState) : Prop where
  wordsNe : s.words_dict ≠ []
  wordsNodup : (s.words_dict.map Prod.fst).Nodup
  thrPos : ∀ p ∈ s.words_dict, 0 < p.2
  cntNodup : (s.word_count.map Prod.fst).Nodup
  cntSub : ∀ q ∈ s.word_count, q.1 ∈ s.words_dict.map Prod.fst
  activeReason : s.terminated = false → s.termination_reason = none
  activeAny : s.terminated = false → s.mode = TerminationMode.ANY →
    ∀ p ∈ s.words_dict, (countOf s.word_count p.1 : Int) < p.2
  activeAll : s.terminated = false → s.mode = TerminationMode.ALL →
    ∃ p ∈ s.words_dict, (countOf s.word_count p.1 : Int) < p.2
  latched : s.terminated = true → ∃ r, s.termination_reason = some r ∧ r ≠ ""

example : strContains "hello bye world" "bye" = true := by decide
example : strContains "hello" "bye" = false := by decide
example : containsWord false "stop" ⟨"STOP now"⟩ = true := by decide
example : containsWord true "stop" ⟨"STOP now"⟩ = false := by decide
example :
    updateCounts false [⟨"bye bye"⟩] [("bye", 2)] [] = [("bye", 1)] := by decide
example :
    (isTerminated (initState [("bye", 1)] false TerminationMode.ANY) [⟨"bye"⟩]).2.terminated
      = true := by decide
example :
    (isTerminated (initState [("bye", 1)] false TerminationMode.ANY) [⟨"bye"⟩]).1 =
      Except.ok (true, some "Word `bye` appears 1 times in response which has reached termination threshold 1.") := rfl

/-! ### Counter lemmas -/

lemma countOf_bump_self (d : List (String × Nat)) (w : String) :
    countOf (bump d w) w = countOf d w + 1 := by
  induction d with
  | nil => simp [bump, countOf]
  | cons q d ih =>
    by_cases h : q.1 = w
    · simp [bump, countOf, h]
    · simp [bump, countOf, h, ih]

lemma countOf_bump_ne (d : List (String × Nat)) (w v : String) (h : v ≠ w) :
    countOf (bump d w) v = countOf d v := by
  induction d with
  | nil => simp [bump, countOf, Ne.symm h]
  | cons q d ih =>
    by_cases hq : q.1 = w
    · simp [bump, countOf, hq, Ne.symm h]
    · simp [bump, countOf, hq, ih]

lemma keys_bump (d : List (String × Nat)) (w : String) :
    (bump d w).map Prod.fst =
      if w ∈ d.map Prod.fst then d.map Prod.fst else d.map Prod.fst ++ [w] := by
  induction d with
  | nil => simp [bump]
  | cons q d ih =>
    by_cases h : q.1 = w
    · simp [bump, h]
    · by_cases hw : w ∈ d.map Prod.fst
      · simp [bump, h, ih, hw]
      · simp [bump, h, ih, hw, Ne.symm h]

lemma nodup_bump (d : List (String × Nat)) (w : String)
    (h : (d.map Prod.fst).Nodup) : ((bump d w).map Prod.fst).Nodup := by
  rw [keys_bump]
  by_cases hw : w ∈ d.map Prod.fst
  · simpa [hw]
  · simp only [hw, if_false]
    rw [List.nodup_append]
    refine ⟨h, List.nodup_singleton w, ?_⟩
    intro a ha hb
    simp at hb
    subst hb
    exact hw ha

lemma countOf_updateForWord_self (cs : Bool) (w : String) (msgs : List BaseMessage) :
    ∀ d, countOf (updateForWord cs w msgs d) w =
      countOf d w + (msgs.filter (fun m => containsWord cs w m)).length := by
  induction msgs with
  | nil => intro d; simp [updateForWord]
  | cons m ms ih =>
    intro d
    by_cases h : containsWord cs w m
    · simp only [updateForWord, h, if_true, ih, countOf_bump_self,
        List.filter_cons, List.length_cons]
      omega
    · simp [updateForWord, h, ih]

lemma countOf_updateForWord_ne (cs : Bool) (w v : String) (msgs : List BaseMessage)
    (h : v ≠ w) : ∀ d, countOf (updateForWord cs w msgs d) v = countOf d v := by
  induction msgs with
  | nil => intro d; simp [updateForWord]
  | cons m ms ih =>
    intro d
    by_cases hm : containsWord cs w m
    · simp [updateForWord, hm, ih, countOf_bump_ne d w v h]
    · simp [updateForWord, hm, ih]

lemma mem_keys_updateForWord (cs : Bool) (w : String) (msgs : List BaseMessage) :
    ∀ d v, v ∈ (updateForWord cs w msgs d).map Prod.fst →
      v ∈ d.map Prod.fst ∨ v = w := by
  induction msgs with
  | nil => intro d v hv; exact Or.inl hv
  | cons m ms ih =>
    intro d v hv
    by_cases hm : containsWord cs w m
    · simp only [updateForWord, hm, if_true] at hv
      rcases ih (bump d w) v hv with h | h
      · rw [keys_bump] at h
        by_cases hw : w ∈ d.map Prod.fst
        · rw [if_pos hw] at h; exact Or.inl h
        · rw [if_neg hw] at h
          rcases List.mem_append.1 h with h | h
          · exact Or.inl h
          · simp at h; exact Or.inr h
      · exact Or.inr h
    · simp only [updateForWord, hm, if_false] at hv
      exact ih d v hv

lemma nodup_updateForWord (cs : Bool) (w : String) (msgs : List BaseMessage) :
    ∀ d, (d.map Prod.fst).Nodup → ((updateForWord cs w msgs d).map Prod.fst).Nodup := by
  induction msgs with
  | nil => intro d h; simpa [updateForWord]
  | cons m ms ih =>
    intro d h
    by_cases hm : containsWord cs w m
    · simp only [updateForWord, hm, if_true]
      exact ih (bump d w) (nodup_bump d w h)
    · simp only [updateForWord, hm, if_false]
      exact ih d h

lemma updateForWord_nil_msgs (cs : Bool) (w : String) (d : List (String × Nat)) :
    updateForWord cs w [] d = d := rfl

lemma updateCounts_nil_msgs (cs : Bool) :
    ∀ (words : List (String × Int)) (d : List (String × Nat)),
      updateCounts cs [] words d = d := by
  intro words
  induction words with
  | nil => intro d; rfl
  | cons p ps ih => intro d; simp [updateCounts, updateForWord_nil_msgs, ih]

lemma countOf_updateCounts_notMem (cs : Bool) (msgs : List BaseMessage) :
    ∀ (words : List (String × Int)) (d : List (String × Nat)) (w : String),
      w ∉ words.map Prod.fst →
      countOf (updateCounts cs msgs words d) w = countOf d w := by
  intro words
  induction words with
  | nil => intro d w _; rfl
  | cons p ps ih =>
    intro d w hw
    simp only [List.map_cons, List.mem_cons] at hw
    push_neg at hw
    simp only [updateCounts]
    rw [ih _ w hw.2, countOf_updateForWord_ne cs p.1 w msgs hw.1]

lemma countOf_updateCounts_mem (cs : Bool) (msgs : List BaseMessage) :
    ∀ (words : List (String × Int)) (d : List (String × Nat)) (w : String) (t : Int),
      (words.map Prod.fst).Nodup → (w, t) ∈ words →
      countOf (updateCounts cs msgs words d) w =
        countOf d w + (msgs.filter (fun m => containsWord cs w m)).length := by
  intro words
  induction words with
  | nil => intro d w t _ h; cases h
  | cons p ps ih =>
    intro d w t hnd hmem
    simp only [List.map_cons, List.nodup_cons] at hnd
    simp only [updateCounts]
    rcases List.mem_cons.1 hmem with h | h
    · subst h
      rw [countOf_updateCounts_notMem cs msgs ps _ w hnd.1,
        countOf_updateForWord_self]
    · have hpw : p.1 ≠ w := by
        intro he
        exact hnd.1 (he ▸ List.mem_map_of_mem Prod.fst h)
      rw [ih _ w t hnd.2 h, countOf_updateForWord_ne cs p.1 w msgs (Ne.symm hpw)]

lemma mem_keys_updateCounts (cs : Bool) (msgs : List BaseMessage) :
    ∀ (words : List (String × Int)) (d : List (String × Nat)) (v : String),
      v ∈ (updateCounts cs msgs words d).map Prod.fst →
      v ∈ d.map Prod.fst ∨ v ∈ words.map Prod.fst := by
  intro words
  induction words with
  | nil => intro d v hv; exact Or.inl hv
  | cons p ps ih =>
    intro d v hv
    rcases ih _ v hv with h | h
    · rcases mem_keys_updateForWord cs p.1 msgs d v h with h2 | h2
      · exact Or.inl h2
      · subst h2; exact Or.inr (List.mem_map_of_mem Prod.fst (List.mem_cons_self p ps))
    · right
      simp only [List.map_cons, List.mem_cons]
      exact Or.inr h

lemma nodup_updateCounts (cs : Bool) (msgs : List BaseMessage) :
    ∀ (words : List (String × Int)) (d : List (String × Nat)),
      (d.map Prod.fst).Nodup → ((updateCounts cs msgs words d).map Prod.fst).Nodup := by
  intro words
  induction words with
  | nil => intro d h; exact h
  | cons p ps ih =>
    intro d h
    exact ih _ (nodup_updateForWord cs p.1 msgs d h)

/-! ### Dict lookup and membership lemmas -/

lemma lookupDict_eq_some_of_mem :
    ∀ (words : List (String × Int)) (w : String) (t : Int),
      (words.map Prod.fst).Nodup → (w, t) ∈ words → lookupDict words w = some t := by
  intro words
  induction words with
  | nil => intro w t _ h; cases h
  | cons p ps ih =>
    intro w t hnd hmem
    simp only [List.map_cons, List.nodup_cons] at hnd
    rcases List.mem_cons.1 hmem with h | h
    · obtain ⟨a, b⟩ := p
      cases h
      simp [lookupDict]
    · have hpw : p.1 ≠ w := by
        intro he
        exact hnd.1 (he ▸ List.mem_map_of_mem Prod.fst h)
      simp only [lookupDict, hpw, if_false]
      exact ih w t hnd.2 h

lemma mem_of_lookupDict_eq_some :
    ∀ (words : List (String × Int)) (w : String) (t : Int),
      lookupDict words w = some t → (w, t) ∈ words := by
  intro words
  induction words with
  | nil => intro w t h; cases h
  | cons p ps ih =>
    intro w t h
    by_cases hp : p.1 = w
    · simp only [lookupDict, hp, if_true, Option.some.injEq] at h
      obtain ⟨a, b⟩ := p
      simp only at hp h
      rw [hp, h] at *
      exact List.mem_cons_self _ _
    · simp only [lookupDict, hp, if_false] at h
      exact List.mem_cons_of_mem p (ih w t h)

lemma countOf_eq_zero_of_notMem :
    ∀ (d : List (String × Nat)) (w : String), w ∉ d.map Prod.fst → countOf d w = 0 := by
  intro d
  induction d with
  | nil => intro w _; rfl
  | cons q d ih =>
    intro w hw
    simp only [List.map_cons, List.mem_cons] at hw
    push_neg at hw
    have hq : q.1 ≠ w := fun h => hw.1 h.symm
    simp only [countOf, hq, if_false]
    exact ih w hw.2

lemma mem_of_mem_keys :
    ∀ (d : List (String × Nat)) (w : String), w ∈ d.map Prod.fst →
      (w, countOf d w) ∈ d := by
  intro d
  induction d with
  | nil => intro w h; cases h
  | cons q d ih =>
    intro w hw
    by_cases hq : q.1 = w
    · obtain ⟨a, b⟩ := q
      simp only at hq
      subst hq
      simp only [countOf, if_pos rfl]
      exact List.mem_cons_self _ _
    · simp only [List.map_cons, List.mem_cons] at hw
      rcases hw with h | h
      · exact absurd h.symm hq
      · simp only [countOf, hq, if_false]
        exact List.mem_cons_of_mem q (ih w h)

lemma countOf_eq_of_mem :
    ∀ (d : List (String × Nat)) (w : String) (v : Nat),
      (d.map Prod.fst).Nodup → (w, v) ∈ d → countOf d w = v := by
  intro d
  induction d with
  | nil => intro w v _ h; cases h
  | cons q d ih =>
    intro w v hnd hmem
    simp only [List.map_cons, List.nodup_cons] at hnd
    rcases List.mem_cons.1 hmem with h | h
    · obtain ⟨a, b⟩ := q
      cases h
      simp [countOf]
    · have hq : q.1 ≠ w := by
        intro he
        exact hnd.1 (he ▸ List.mem_map_of_mem Prod.fst h)
      simp only [countOf, hq, if_false]
      exact ih w v hnd.2 h

/-! ### Reached-word lemmas -/

lemma reachedReasons_cons_some (words : List (String × Int)) (q : String × Nat)
    (counts : List (String × Nat)) (t : Int) (hq : lookupDict words q.1 = some t) :
    reachedReasons words (q :: counts) =
      if t ≤ (q.2 : Int) then reasonStr q.1 q.2 t :: reachedReasons words counts
      else reachedReasons words counts := by
  simp only [reachedReasons, hq]

lemma reachedReasons_cons_none (words : List (String × Int)) (q : String × Nat)
    (counts : List (String × Nat)) (hq : lookupDict words q.1 = none) :
    reachedReasons words (q :: counts) = reachedReasons words counts := by
  simp only [reachedReasons, hq]

lemma reasonStr_mem_reachedReasons :
    ∀ (counts : List (String × Nat)) (words : List (String × Int))
      (w : String) (v : Nat) (thr : Int),
      (w, v) ∈ counts → lookupDict words w = some thr → thr ≤ (v : Int) →
      reasonStr w v thr ∈ reachedReasons words counts := by
  intro counts
  induction counts with
  | nil => intro words w v thr h _ _; cases h
  | cons q cs ih =>
    intro words w v thr hmem hlook hle
    rcases List.mem_cons.1 hmem with h | h
    · obtain ⟨a, b⟩ := q
      cases h
      rw [reachedReasons_cons_some words (w, v) cs thr hlook, if_pos hle]
      exact List.mem_cons_self _ _
    · cases hq : lookupDict words q.1 with
      | none =>
        rw [reachedReasons_cons_none words q cs hq]
        exact ih words w v thr h hlook hle
      | some t =>
        rw [reachedReasons_cons_some words q cs t hq]
        by_cases ht : t ≤ (q.2 : Int)
        · rw [if_pos ht]
          exact List.mem_cons_of_mem _ (ih words w v thr h hlook hle)
        · rw [if_neg ht]
          exact ih words w v thr h hlook hle

lemma exists_of_mem_reachedReasons :
    ∀ (counts : List (String × Nat)) (words : List (String × Int)) (r : String),
      r ∈ reachedReasons words counts →
      ∃ w v thr, (w, v) ∈ counts ∧ lookupDict words w = some thr ∧
        thr ≤ (v : Int) ∧ r = reasonStr w v thr := by
  intro counts
  induction counts with
  | nil => intro words r h; cases h
  | cons q cs ih =>
    intro words r hr
    cases hq : lookupDict words q.1 with
    | none =>
      rw [reachedReasons_cons_none words q cs hq] at hr
      obtain ⟨w, v, thr, h1, h2, h3, h4⟩ := ih words r hr
      exact ⟨w, v, thr, List.mem_cons_of_mem q h1, h2, h3, h4⟩
    | some t =>
      rw [reachedReasons_cons_some words q cs t hq] at hr
      by_cases ht : t ≤ (q.2 : Int)
      · rw [if_pos ht] at hr
        rcases List.mem_cons.1 hr with h | h
        · exact ⟨q.1, q.2, t, List.mem_cons_self q cs, hq, ht, h⟩
        · obtain ⟨w, v, thr, h1, h2, h3, h4⟩ := ih words r h
          exact ⟨w, v, thr, List.mem_cons_of_mem q h1, h2, h3, h4⟩
      · rw [if_neg ht] at hr
        obtain ⟨w, v, thr, h1, h2, h3, h4⟩ := ih words r hr
        exact ⟨w, v, thr, List.mem_cons_of_mem q h1, h2, h3, h4⟩

lemma reachedReasons_eq_nil_iff (words : List (String × Int)) :
    ∀ counts : List (String × Nat),
      reachedReasons words counts = [] ↔
        ∀ q ∈ counts, ∀ thr, lookupDict words q.1 = some thr → (q.2 : Int) < thr := by
  intro counts
  induction counts with
  | nil => simp [reachedReasons]
  | cons q cs ih =>
    cases hq : lookupDict words q.1 with
    | none =>
      rw [reachedReasons_cons_none words q cs hq, ih]
      constructor
      · intro h p hp thr hthr
        rcases List.mem_cons.1 hp with he | he
        · rw [he, hq] at hthr; cases hthr
        · exact h p he thr hthr
      · intro h p hp thr hthr
        exact h p (List.mem_cons_of_mem q hp) thr hthr
    | some t =>
      rw [reachedReasons_cons_some words q cs t hq]
      by_cases ht : t ≤ (q.2 : Int)
      · rw [if_pos ht]
        constructor
        · intro h; cases h
        · intro h
          have := h q (List.mem_cons_self q cs) t hq
          omega
      · rw [if_neg ht, ih]
        constructor
        · intro h p hp thr hthr
          rcases List.mem_cons.1 hp with he | he
          · subst he
            rw [hq] at hthr
            cases hthr
            omega
          · exact h p he thr hthr
        · intro h p hp thr hthr
          exact h p (List.mem_cons_of_mem q hp) thr hthr

/-! ### `reachedKeys` and the aggregation conditions -/

lemma reachedKeys_cons_some (words : List (String × Int)) (q : String × Nat)
    (counts : List (String × Nat)) (t : Int) (hq : lookupDict words q.1 = some t) :
    reachedKeys words (q :: counts) =
      if t ≤ (q.2 : Int) then q.1 :: reachedKeys words counts
      else reachedKeys words counts := by
  simp only [reachedKeys, hq]

lemma reachedKeys_cons_none (words : List (String × Int)) (q : String × Nat)
    (counts : List (String × Nat)) (hq : lookupDict words q.1 = none) :
    reachedKeys words (q :: counts) = reachedKeys words counts := by
  simp only [reachedKeys, hq]

lemma reachedKeys_sublist (words : List (String × Int)) :
    ∀ counts : List (String × Nat),
      List.Sublist (reachedKeys words counts) (counts.map Prod.fst) := by
  intro counts
  induction counts with
  | nil => simp [reachedKeys]
  | cons q cs ih =>
    cases hq : lookupDict words q.1 with
    | none =>
      rw [reachedKeys_cons_none words q cs hq, List.map_cons]
      exact List.Sublist.cons q.1 ih
    | some t =>
      rw [reachedKeys_cons_some words q cs t hq, List.map_cons]
      by_cases ht : t ≤ (q.2 : Int)
      · rw [if_pos ht]; exact List.Sublist.cons₂ q.1 ih
      · rw [if_neg ht]; exact List.Sublist.cons q.1 ih

lemma length_reachedReasons_eq (words : List (String × Int)) :
    ∀ counts, (reachedReasons words counts).length = (reachedKeys words counts).length := by
  intro counts
  induction counts with
  | nil => rfl
  | cons q cs ih =>
    cases hq : lookupDict words q.1 with
    | none =>
      rw [reachedKeys_cons_none words q cs hq, reachedReasons_cons_none words q cs hq, ih]
    | some t =>
      rw [reachedKeys_cons_some words q cs t hq, reachedReasons_cons_some words q cs t hq]
      by_cases ht : t ≤ (q.2 : Int)
      · rw [if_pos ht, if_pos ht]
        simp [ih]
      · rw [if_neg ht, if_neg ht, ih]

lemma mem_reachedKeys (words : List (String × Int)) :
    ∀ (counts : List (String × Nat)) (v : String),
      v ∈ reachedKeys words counts ↔
        ∃ n thr, (v, n) ∈ counts ∧ lookupDict words v = some thr ∧ thr ≤ (n : Int) := by
  intro counts
  induction counts with
  | nil => simp [reachedKeys]
  | cons q cs ih =>
    intro v
    obtain ⟨a, b⟩ := q
    cases hq : lookupDict words a with
    | none =>
      rw [reachedKeys_cons_none words (a, b) cs hq, ih v]
      constructor
      · rintro ⟨n, thr, h1, h2, h3⟩
        exact ⟨n, thr, List.mem_cons_of_mem _ h1, h2, h3⟩
      · rintro ⟨n, thr, h1, h2, h3⟩
        rcases List.mem_cons.1 h1 with he | he
        · injection he with hva hnb
          rw [hva, hq] at h2
          cases h2
        · exact ⟨n, thr, he, h2, h3⟩
    | some t =>
      rw [reachedKeys_cons_some words (a, b) cs t hq]
      by_cases ht : t ≤ ((a, b).2 : Int)
      · rw [if_pos ht]
        constructor
        · intro hv
          rcases List.mem_cons.1 hv with he | he
          · subst he
            exact ⟨b, t, List.mem_cons_self _ _, hq, ht⟩
          · obtain ⟨n, thr, h1, h2, h3⟩ := (ih v).1 he
            exact ⟨n, thr, List.mem_cons_of_mem _ h1, h2, h3⟩
        · rintro ⟨n, thr, h1, h2, h3⟩
          rcases List.mem_cons.1 h1 with he | he
          · injection he with hv hn
            subst hv
            exact List.mem_cons_self _ _
          · exact List.mem_cons_of_mem _ ((ih v).2 ⟨n, thr, he, h2, h3⟩)
      · rw [if_neg ht, ih v]
        constructor
        · rintro ⟨n, thr, h1, h2, h3⟩
          exact ⟨n, thr, List.mem_cons_of_mem _ h1, h2, h3⟩
        · rintro ⟨n, thr, h1, h2, h3⟩
          rcases List.mem_cons.1 h1 with he | he
          · injection he with hv hn
            subst hv
            subst hn
            rw [hq] at h2
            cases h2
            exact absurd h3 ht
          · exact ⟨n, thr, he, h2, h3⟩

lemma reachedReasons_ne_nil_iff (words : List (String × Int))
    (counts : List (String × Nat))
    (hwn : (words.map Prod.fst).Nodup) (hcn : (counts.map Prod.fst).Nodup)
    (hpos : ∀ p ∈ words, 0 < p.2) :
    reachedReasons words counts ≠ [] ↔
      ∃ p ∈ words, (p.2 : Int) ≤ (countOf counts p.1 : Int) := by
  constructor
  · intro h
    obtain ⟨r, hr⟩ := List.exists_mem_of_ne_nil _ h
    obtain ⟨w, v, thr, h1, h2, h3, _⟩ := exists_of_mem_reachedReasons counts words r hr
    refine ⟨(w, thr), mem_of_lookupDict_eq_some words w thr h2, ?_⟩
    have hc : countOf counts w = v := countOf_eq_of_mem counts w v hcn h1
    simpa [hc]
  · rintro ⟨p, hp, hle⟩ hnil
    obtain ⟨a, b⟩ := p
    have hpos2 : 0 < b := hpos (a, b) hp
    have hcnt : 0 < countOf counts a := by
      by_contra hn
      push_neg at hn
      simp only at hle
      omega
    have hmemk : a ∈ counts.map Prod.fst := by
      by_contra hn
      rw [countOf_eq_zero_of_notMem counts a hn] at hcnt
      omega
    have hment : (a, countOf counts a) ∈ counts := mem_of_mem_keys counts a hmemk
    have hlook : lookupDict words a = some b :=
      lookupDict_eq_some_of_mem words a b hwn hp
    have hmm := reasonStr_mem_reachedReasons counts words a (countOf counts a) b hment hlook
      (by simpa using hle)
    rw [hnil] at hmm
    cases hmm

lemma numReached_le (words : List (String × Int)) (counts : List (String × Nat))
    (hcn : (counts.map Prod.fst).Nodup)
    (hsub : ∀ q ∈ counts, q.1 ∈ words.map Prod.fst) :
    numReached words counts ≤ words.length := by
  rw [numReached, length_reachedReasons_eq]
  have hnd : (reachedKeys words counts).Nodup :=
    (reachedKeys_sublist words counts).nodup hcn
  have hsubs : reachedKeys words counts ⊆ words.map Prod.fst := by
    intro v hv
    have hvk : v ∈ counts.map Prod.fst := (reachedKeys_sublist words counts).subset hv
    obtain ⟨q, hq, he⟩ := List.mem_map.1 hvk
    rw [← he]
    exact hsub q hq
  have := (hnd.subperm hsubs).length_le
  simpa using this

lemma numReached_eq_words_iff (words : List (String × Int)) (counts : List (String × Nat))
    (hwn : (words.map Prod.fst).Nodup) (hcn : (counts.map Prod.fst).Nodup)
    (hsub : ∀ q ∈ counts, q.1 ∈ words.map Prod.fst)
    (hpos : ∀ p ∈ words, 0 < p.2) :
    words.length ≤ numReached words counts ↔
      ∀ p ∈ words, (p.2 : Int) ≤ (countOf counts p.1 : Int) := by
  constructor
  · intro h p hp
    have hnd : (reachedKeys words counts).Nodup :=
      (reachedKeys_sublist words counts).nodup hcn
    have hsubs : reachedKeys words counts ⊆ words.map Prod.fst := by
      intro v hv
      have hvk : v ∈ counts.map Prod.fst := (reachedKeys_sublist words counts).subset hv
      obtain ⟨q, hq, he⟩ := List.mem_map.1 hvk
      rw [← he]
      exact hsub q hq
    have hperm : List.Perm (reachedKeys words counts) (words.map Prod.fst) := by
      refine (hnd.subperm hsubs).perm_of_length_le ?_
      rw [numReached, length_reachedReasons_eq] at h
      simpa using h
    have hpmem : p.1 ∈ reachedKeys words counts :=
      hperm.mem_iff.2 (List.mem_map_of_mem Prod.fst hp)
    obtain ⟨n, thr, h1, h2, h3⟩ := (mem_reachedKeys words counts p.1).1 hpmem
    have hlook : lookupDict words p.1 = some p.2 := by
      obtain ⟨a, b⟩ := p
      exact lookupDict_eq_some_of_mem words a b hwn hp
    rw [hlook] at h2
    cases h2
    have hc : countOf counts p.1 = n := countOf_eq_of_mem counts p.1 n hcn h1
    rw [hc]
    exact h3
  · intro h
    have hsub2 : words.map Prod.fst ⊆ reachedKeys words counts := by
      intro v hv
      obtain ⟨p, hp, he⟩ := List.mem_map.1 hv
      subst he
      have hle := h p hp
      have hpos2 := hpos p hp
      have hcnt : 0 < countOf counts p.1 := by
        by_contra hn
        push_neg at hn
        omega
      have hmemk : p.1 ∈ counts.map Prod.fst := by
        by_contra hn
        rw [countOf_eq_zero_of_notMem counts p.1 hn] at hcnt
        omega
      refine (mem_reachedKeys words counts p.1).2
        ⟨countOf counts p.1, p.2, mem_of_mem_keys counts p.1 hmemk, ?_, hle⟩
      obtain ⟨a, b⟩ := p
      exact lookupDict_eq_some_of_mem words a b hwn hp
    have := (hwn.subperm hsub2).length_le
    rw [numReached, length_reachedReasons_eq]
    simpa using this

/-! ### String lemmas -/

lemma reasonStr_ne_empty (w : String) (v : Nat) (thr : Int) : reasonStr w v thr ≠ "" := by
  intro h
  have h2 := congrArg String.length h
  rw [reasonStr] at h2
  simp only [String.length_append] at h2
  have h6 : ("Word `" : String).length = 6 := rfl
  have h0 : ("" : String).length = 0 := rfl
  omega

lemma joinSep_ne_empty (sep : String) (r : String) (rs : List String) (hr : r ≠ "") :
    joinSep sep (r :: rs) ≠ "" := by
  cases rs with
  | nil => simpa [joinSep]
  | cons x xs =>
    simp only [joinSep]
    intro h
    have h2 := congrArg String.length h
    simp only [String.length_append] at h2
    have h0 : ("" : String).length = 0 := rfl
    have hlen : r.length = 0 := by omega
    apply hr
    apply String.ext
    have h3 : r.data.length = 0 := hlen
    have h4 : r.data = [] := List.length_eq_zero.1 h3
    rw [h4]

lemma prefixCheck_iff : ∀ (n h : List Char), prefixCheck n h = true ↔ ∃ r, h = n ++ r := by
  intro n
  induction n with
  | nil => intro h; simp [prefixCheck]
  | cons a n ih =>
    intro h
    cases h with
    | nil => simp [prefixCheck]
    | cons b h2 =>
      simp only [prefixCheck, Bool.and_eq_true, beq_iff_eq]
      rw [ih h2]
      constructor
      · rintro ⟨rfl, r, rfl⟩
        exact ⟨r, rfl⟩
      · rintro ⟨r, hr⟩
        injection hr with hb hh
        subst hb
        subst hh
        exact ⟨rfl, r, rfl⟩

lemma containsSub_iff : ∀ (h n : List Char), containsSub n h = true ↔ ∃ l r, h = l ++ n ++ r := by
  intro h
  induction h with
  | nil =>
    intro n
    rw [show containsSub n [] = n.isEmpty from rfl]
    constructor
    · intro he
      have hn : n = [] := by simpa [List.isEmpty_iff] using he
      exact ⟨[], [], by simp [hn]⟩
    · rintro ⟨l, r, hr⟩
      have h1 := List.append_eq_nil.1 hr.symm
      have h2 := List.append_eq_nil.1 h1.1
      simp [List.isEmpty_iff, h2.2]
  | cons c h ih =>
    intro n
    simp only [containsSub, Bool.or_eq_true]
    rw [prefixCheck_iff n (c :: h), ih n]
    constructor
    · rintro (⟨r, hr⟩ | ⟨l, r, hr⟩)
      · exact ⟨[], r, by simpa using hr⟩
      · exact ⟨c :: l, r, by rw [hr]; rfl⟩
    · rintro ⟨l, r, hr⟩
      cases l with
      | nil => exact Or.inl ⟨r, by simpa using hr⟩
      | cons x l =>
        right
        injection hr with h1 h2
        exact ⟨l, r, h2⟩

lemma strContains_iff (h n : String) :
    strContains h n = true ↔ ∃ l r : String, h = l ++ n ++ r := by
  rw [strContains, containsSub_iff]
  constructor
  · rintro ⟨l, r, hr⟩
    refine ⟨⟨l⟩, ⟨r⟩, ?_⟩
    apply String.ext
    simp only [String.data_append]
    exact hr
  · rintro ⟨l, r, hr⟩
    refine ⟨l.data, r.data, ?_⟩
    rw [hr]
    simp [String.data_append]

/-! ### Unfolding lemmas for `isTerminated` -/

lemma isTerminated_of_terminated (s : TerminatorState) (msgs : List BaseMessage)
    (h : s.terminated = true) :
    isTerminated s msgs = (Except.ok (true, s.termination_reason), s) := by
  simp [isTerminated, h]

lemma isTerminated_any_pos (s : TerminatorState) (msgs : List BaseMessage)
    (hnt : s.terminated = false) (hm : s.mode = TerminationMode.ANY)
    (hpos : 0 < numReached s.words_dict (updateCounts s.case_sensitive msgs s.words_dict s.word_count)) :
    isTerminated s msgs =
      (Except.ok (true, some (joinSep "\n"
          (reachedReasons s.words_dict (updateCounts s.case_sensitive msgs s.words_dict s.word_count)))),
       { s with
          word_count := updateCounts s.case_sensitive msgs s.words_dict s.word_count,
          terminated := true,
          termination_reason := some (joinSep "\n"
            (reachedReasons s.words_dict (updateCounts s.case_sensitive msgs s.words_dict s.word_count))) }) := by
  simp [isTerminated, hnt, hm, hpos]

lemma isTerminated_any_neg (s : TerminatorState) (msgs : List BaseMessage)
    (hnt : s.terminated = false) (hm : s.mode = TerminationMode.ANY)
    (hneg : ¬ 0 < numReached s.words_dict (updateCounts s.case_sensitive msgs s.words_dict s.word_count)) :
    isTerminated s msgs =
      (Except.ok (false, s.termination_reason),
       { s with word_count := updateCounts s.case_sensitive msgs s.words_dict s.word_count }) := by
  simp [isTerminated, hnt, hm, hneg]

lemma isTerminated_all_pos (s : TerminatorState) (msgs : List BaseMessage)
    (hnt : s.terminated = false) (hm : s.mode = TerminationMode.ALL)
    (hpos : s.words_dict.length ≤ numReached s.words_dict (updateCounts s.case_sensitive msgs s.words_dict s.word_count)) :
    isTerminated s msgs =
      (Except.ok (true, some (joinSep "\n"
          (reachedReasons s.words_dict (updateCounts s.case_sensitive msgs s.words_dict s.word_count)))),
       { s with
          word_count := updateCounts s.case_sensitive msgs s.words_dict s.word_count,
          terminated := true,
          termination_reason := some (joinSep "\n"
            (reachedReasons s.words_dict (updateCounts s.case_sensitive msgs s.words_dict s.word_count))) }) := by
  simp [isTerminated, hnt, hm, hpos]

lemma isTerminated_all_neg (s : TerminatorState) (msgs : List BaseMessage)
    (hnt : s.terminated = false) (hm : s.mode = TerminationMode.ALL)
    (hneg : ¬ s.words_dict.length ≤ numReached s.words_dict (updateCounts s.case_sensitive msgs s.words_dict s.word_count)) :
    isTerminated s msgs =
      (Except.ok (false, s.termination_reason),
       { s with word_count := updateCounts s.case_sensitive msgs s.words_dict s.word_count }) := by
  simp [isTerminated, hnt, hm, hneg]

lemma isTerminated_other (s : TerminatorState) (msgs : List BaseMessage) (n : String)
    (hnt : s.terminated = false) (hm : s.mode = TerminationMode.OTHER n) :
    isTerminated s msgs =
      (Except.error ("Unsupported termination mode `" ++ n ++ "`"),
       { s with word_count := updateCounts s.case_sensitive msgs s.words_dict s.word_count }) := by
  simp [isTerminated, hnt, hm]

/-! ### Construction lemmas -/

lemma firstBadThreshold_eq_none : ∀ words : List (String × Int),
    firstBadThreshold words = none ↔ ∀ p ∈ words, 0 < p.2 := by
  intro words
  induction words with
  | nil => simp [firstBadThreshold]
  | cons p ps ih =>
    by_cases hp : p.2 ≤ 0
    · simp only [firstBadThreshold, if_pos hp]
      constructor
      · intro h; cases h
      · intro h
        have := h p (List.mem_cons_self p ps)
        omega
    · simp only [firstBadThreshold, if_neg hp]
      rw [ih]
      constructor
      · intro h q hq
        rcases List.mem_cons.1 hq with he | he
        · subst he; omega
        · exact h q he
      · intro h q hq
        exact h q (List.mem_cons_of_mem p hq)

lemma mkTerminator_eq_ok (w : List (String × Int)) (cs : Bool) (m : TerminationMode)
    (s : TerminatorState) (h : mkTerminator w cs m = Except.ok s) :
    s = initState w cs m ∧ w ≠ [] ∧ ∀ p ∈ w, 0 < p.2 := by
  cases hv : validateMsg w with
  | some e =>
    simp only [mkTerminator, hv] at h
    cases h
  | none =>
    simp only [mkTerminator, hv] at h
    injection h with h1
    rw [validateMsg] at hv
    by_cases hlen : w.length = 0
    · rw [if_pos hlen] at hv; cases hv
    · rw [if_neg hlen] at hv
      refine ⟨h1.symm, ?_, (firstBadThreshold_eq_none w).1 hv⟩
      intro he
      rw [he] at hlen
      exact hlen rfl

lemma stateInv_initState (w : List (String × Int)) (cs : Bool) (m : TerminationMode)
    (hw : (w.map Prod.fst).Nodup) (hne : w ≠ []) (hpos : ∀ p ∈ w, 0 < p.2) :
    StateInv (initState w cs m) := by
  refine ⟨hne, hw, hpos, ?_, ?_, ?_, ?_, ?_, ?_⟩
  · simp [initState]
  · intro q hq
    simp [initState] at hq
  · intro _; rfl
  · intro _ _ p hp
    have := hpos p hp
    simp only [initState, countOf]
    omega
  · intro _ _
    obtain ⟨p, hp⟩ := List.exists_mem_of_ne_nil w hne
    refine ⟨p, hp, ?_⟩
    have := hpos p hp
    simp only [initState, countOf]
    omega
  · intro h; cases h

lemma reset_eq_initState (s : TerminatorState) :
    reset s = initState s.words_dict s.case_sensitive s.mode := by
  cases s
  rfl

lemma joined_reasons_ne_empty (words : List (String × Int)) (counts : List (String × Nat))
    (h : reachedReasons words counts ≠ []) :
    joinSep "\n" (reachedReasons words counts) ≠ "" := by
  cases hr : reachedReasons words counts with
  | nil => exact absurd hr h
  | cons r rs =>
    have hmem : r ∈ reachedReasons words counts := by
      rw [hr]
      exact List.mem_cons_self r rs
    obtain ⟨w, v, thr, _, _, _, h4⟩ := exists_of_mem_reachedReasons counts words r hmem
    refine joinSep_ne_empty "\n" r rs ?_
    rw [h4]
    exact reasonStr_ne_empty w v thr

/-! ### Invariant preservation -/

lemma stateInv_step (s t : TerminatorState) (msgs : List BaseMessage)
    (r : Except String (Bool × Option String))
    (inv : StateInv s) (h : isTerminated s msgs = (r, t)) : StateInv t := by
  cases hb : s.terminated with
  | true =>
    rw [isTerminated_of_terminated s msgs hb] at h
    injection h with h1 h2
    rw [← h2]
    exact inv
  | false =>
    have hcn2 : ((updateCounts s.case_sensitive msgs s.words_dict s.word_count).map Prod.fst).Nodup :=
      nodup_updateCounts s.case_sensitive msgs s.words_dict s.word_count inv.cntNodup
    have hsub2 : ∀ q ∈ updateCounts s.case_sensitive msgs s.words_dict s.word_count,
        q.1 ∈ s.words_dict.map Prod.fst := by
      intro q hq
      have hk : q.1 ∈ (updateCounts s.case_sensitive msgs s.words_dict s.word_count).map Prod.fst :=
        List.mem_map_of_mem Prod.fst hq
      rcases mem_keys_updateCounts s.case_sensitive msgs s.words_dict s.word_count q.1 hk with hk2 | hk2
      · obtain ⟨q2, hq2, he⟩ := List.mem_map.1 hk2
        rw [← he]
        exact inv.cntSub q2 hq2
      · exact hk2
    cases hm : s.mode with
    | ANY =>
      by_cases hc : 0 < numReached s.words_dict (updateCounts s.case_sensitive msgs s.words_dict s.word_count)
      · rw [isTerminated_any_pos s msgs hb hm hc] at h
        injection h with h1 h2
        rw [← h2]
        refine ⟨inv.wordsNe, inv.wordsNodup, inv.thrPos, hcn2, hsub2, ?_, ?_, ?_, ?_⟩
        · intro hfalse; cases hfalse
        · intro hfalse; cases hfalse
        · intro hfalse; cases hfalse
        · intro _
          refine ⟨joinSep "\n" (reachedReasons s.words_dict (updateCounts s.case_sensitive msgs s.words_dict s.word_count)), rfl, ?_⟩
          refine joined_reasons_ne_empty s.words_dict _ ?_
          exact List.length_pos.1 hc
      · rw [isTerminated_any_neg s msgs hb hm hc] at h
        injection h with h1 h2
        rw [← h2]
        have hreasons : reachedReasons s.words_dict (updateCounts s.case_sensitive msgs s.words_dict s.word_count) = [] := by
          rw [numReached] at hc
          exact List.length_eq_zero.1 (by omega)
        refine ⟨inv.wordsNe, inv.wordsNodup, inv.thrPos, hcn2, hsub2, ?_, ?_, ?_, ?_⟩
        · intro _
          exact inv.activeReason hb
        · intro _ _ p hp
          by_contra hle
          push_neg at hle
          have hne : reachedReasons s.words_dict (updateCounts s.case_sensitive msgs s.words_dict s.word_count) ≠ [] :=
            (reachedReasons_ne_nil_iff s.words_dict _ inv.wordsNodup hcn2 inv.thrPos).2 ⟨p, hp, hle⟩
          exact hne hreasons
        · intro _ hmode
          cases hm.symm.trans hmode
        · intro htrue
          cases hb.symm.trans htrue
    | ALL =>
      by_cases hc : s.words_dict.length ≤ numReached s.words_dict (updateCounts s.case_sensitive msgs s.words_dict s.word_count)
      · rw [isTerminated_all_pos s msgs hb hm hc] at h
        injection h with h1 h2
        rw [← h2]
        refine ⟨inv.wordsNe, inv.wordsNodup, inv.thrPos, hcn2, hsub2, ?_, ?_, ?_, ?_⟩
        · intro hfalse; cases hfalse
        · intro hfalse; cases hfalse
        · intro hfalse; cases hfalse
        · intro _
          refine ⟨joinSep "\n" (reachedReasons s.words_dict (updateCounts s.case_sensitive msgs s.words_dict s.word_count)), rfl, ?_⟩
          refine joined_reasons_ne_empty s.words_dict _ ?_
          refine List.length_pos.1 ?_
          have hw0 : 0 < s.words_dict.length := List.length_pos.2 inv.wordsNe
          rw [numReached] at hc
          omega
      · rw [isTerminated_all_neg s msgs hb hm hc] at h
        injection h with h1 h2
        rw [← h2]
        refine ⟨inv.wordsNe, inv.wordsNodup, inv.thrPos, hcn2, hsub2, ?_, ?_, ?_, ?_⟩
        · intro _
          exact inv.activeReason hb
        · intro _ hmode
          cases hm.symm.trans hmode
        · intro _ _
          by_contra hno
          push_neg at hno
          refine hc ((numReached_eq_words_iff s.words_dict _ inv.wordsNodup hcn2 hsub2 inv.thrPos).2 ?_)
          intro p hp
          exact hno p hp
        · intro htrue
          cases hb.symm.trans htrue
    | OTHER n =>
      rw [isTerminated_other s msgs n hb hm] at h
      injection h with h1 h2
      rw [← h2]
      refine ⟨inv.wordsNe, inv.wordsNodup, inv.thrPos, hcn2, hsub2, ?_, ?_, ?_, ?_⟩
      · intro _
        exact inv.activeReason hb
      · intro _ hmode
        cases hm.symm.trans hmode
      · intro _ hmode
        cases hm.symm.trans hmode
      · intro htrue
        cases hb.symm.trans htrue

lemma stateInv_of_reachable (s : TerminatorState) (h : Reachable s) : StateInv s := by
  induction h with
  | init w cs m s hw hmk =>
    obtain ⟨hs, hne, hpos⟩ := mkTerminator_eq_ok w cs m s hmk
    rw [hs]
    exact stateInv_initState w cs m hw hne hpos
  | step s t msgs r hs h ih =>
    exact stateInv_step s t msgs r ih h
  | rst s hs ih =>
    rw [reset_eq_initState s]
    exact stateInv_initState _ _ _ ih.wordsNodup ih.wordsNe ih.thrPos

/-! ### Helper lemmas shared by the claim theorems -/

lemma isTerminated_word_count (s : TerminatorState) (msgs : List BaseMessage)
    (hnt : s.terminated = false) :
    (isTerminated s msgs).2.word_count =
      updateCounts s.case_sensitive msgs s.words_dict s.word_count := by
  cases hm : s.mode with
  | ANY =>
    by_cases hc : 0 < numReached s.words_dict (updateCounts s.case_sensitive msgs s.words_dict s.word_count)
    · rw [isTerminated_any_pos s msgs hnt hm hc]
    · rw [isTerminated_any_neg s msgs hnt hm hc]
  | ALL =>
    by_cases hc : s.words_dict.length ≤ numReached s.words_dict (updateCounts s.case_sensitive msgs s.words_dict s.word_count)
    · rw [isTerminated_all_pos s msgs hnt hm hc]
    · rw [isTerminated_all_neg s msgs hnt hm hc]
  | OTHER n =>
    rw [isTerminated_other s msgs n hnt hm]

lemma mkTerminator_ok_of_valid (words : List (String × Int)) (cs : Bool)
    (m : TerminationMode) (hne : words ≠ []) (hpos : ∀ p ∈ words, 0 < p.2) :
    mkTerminator words cs m = Except.ok (initState words cs m) := by
  have hlen : ¬ words.length = 0 := by
    intro h0
    exact hne (List.length_eq_zero.1 h0)
  simp only [mkTerminator, validateMsg, if_neg hlen,
    (firstBadThreshold_eq_none words).2 hpos]

lemma firstBadThreshold_append (pre : List (String × Int)) (w : String) (t : Int)
    (post : List (String × Int)) (hpre : ∀ p ∈ pre, 0 < p.2) (ht : t ≤ 0) :
    firstBadThreshold (pre ++ (w, t) :: post) =
      some ("Threshold for word `" ++ w ++ "` should be larger than 0, got `" ++
        toString t ++ "`") := by
  induction pre with
  | nil => simp only [List.nil_append, firstBadThreshold, if_pos ht]
  | cons p ps ih =>
    have hp : 0 < p.2 := hpre p (List.mem_cons_self p ps)
    simp only [List.cons_append, firstBadThreshold, if_neg (by omega : ¬ p.2 ≤ 0)]
    exact ih (fun q hq => hpre q (List.mem_cons_of_mem p hq))

/-! ### The claims -/

/-- C3: in a non-latched call, every watched word's running counter is
incremented by exactly one for each message whose (case-normalised) content
contains the (case-normalised) word as a substring — once per message, no
matter how many occurrences the message holds — and not incremented for
messages that do not contain it; the update adds on top of the previous
counter state (accumulation across calls) and an absent counter reads 0. -/
theorem counter_update_spec (s : TerminatorState) (msgs : List BaseMessage)
    (p : String × Int)
    (hnt : s.terminated = false)
    (hwn : (s.words_dict.map Prod.fst).Nodup)
    (hp : p ∈ s.words_dict) :
    countOf (isTerminated s msgs).2.word_count p.1 =
        countOf s.word_count p.1 +
          (msgs.filter (fun m => containsWord s.case_sensitive p.1 m)).length ∧
    countOf ([] : List (String × Nat)) p.1 = 0 ∧
    (∀ m : BaseMessage, containsWord s.case_sensitive p.1 m = true ↔
      ∃ l r : String,
        (if s.case_sensitive then m.content else lowerStr m.content) =
          l ++ (if s.case_sensitive then p.1 else lowerStr p.1) ++ r) := by
  obtain ⟨a, b⟩ := p
  refine ⟨?_, rfl, ?_⟩
  · rw [isTerminated_word_count s msgs hnt]
    exact countOf_updateCounts_mem s.case_sensitive msgs s.words_dict s.word_count a b hwn hp
  · intro m
    simp only [containsWord]
    exact strContains_iff _ _

/-- C3 witness: with watch word "bye" (threshold 2) and messages
`["bye bye", "no"]`, the counter rises by exactly 1 (the double occurrence
in one message counts once). -/
theorem counter_update_spec_witness :
    (("bye", (2 : Int)) ∈ (initState [("bye", 2)] false TerminationMode.ANY).words_dict) ∧
    (initState [("bye", 2)] false TerminationMode.ANY).terminated = false ∧
    countOf (isTerminated (initState [("bye", 2)] false TerminationMode.ANY)
        [⟨"bye bye"⟩, ⟨"no"⟩]).2.word_count "bye" = 1 := by
  refine ⟨by decide, rfl, ?_⟩
  rw [(counter_update_spec (initState [("bye", 2)] false TerminationMode.ANY)
    [⟨"bye bye"⟩, ⟨"no"⟩] ("bye", 2) rfl (by decide) (by decide)).1]
  decide

/-- C7: with `case_sensitive = false` both the watched word and the message
content are lower-cased before the substring check ("stop" matches
"STOP now"); with `case_sensitive = true` neither is lowered and "stop"
does not match "STOP now". -/
theorem case_sensitivity_spec (w : String) (m : BaseMessage) :
    containsWord false w m = strContains (lowerStr m.content) (lowerStr w) ∧
    containsWord true w m = strContains m.content w ∧
    containsWord false "stop" ⟨"STOP now"⟩ = true ∧
    containsWord true "stop" ⟨"STOP now"⟩ = false ∧
    (isTerminated (initState [("stop", 1)] false TerminationMode.ANY)
      [⟨"STOP now"⟩]).2.terminated = true ∧
    (isTerminated (initState [("stop", 1)] true TerminationMode.ANY)
      [⟨"STOP now"⟩]).2.terminated = false := by
  exact ⟨rfl, rfl, by decide, by decide, by decide, by decide⟩

/-- C4: once `is_terminated` has returned `(true, r)`, every subsequent
call — with any message sequence — returns exactly `(true, r)` and leaves
the state (latch and counters) completely unchanged. -/
theorem latch_idempotent (s s2 : TerminatorState) (msgs msgs2 : List BaseMessage)
    (r : Option String)
    (h : isTerminated s msgs = (Except.ok (true, r), s2)) :
    s2.terminated = true ∧ s2.termination_reason = r ∧
      isTerminated s2 msgs2 = (Except.ok (true, r), s2) := by
  cases hb : s.terminated with
  | true =>
    rw [isTerminated_of_terminated s msgs hb] at h
    injection h with h1 h2
    injection h1 with h3
    injection h3 with h4 h5
    subst h2
    subst h5
    exact ⟨hb, rfl, by rw [isTerminated_of_terminated s msgs2 hb]⟩
  | false =>
    cases hm : s.mode with
    | ANY =>
      by_cases hc : 0 < numReached s.words_dict (updateCounts s.case_sensitive msgs s.words_dict s.word_count)
      · rw [isTerminated_any_pos s msgs hb hm hc] at h
        injection h with h1 h2
        injection h1 with h3
        injection h3 with h4 h5
        subst h2
        subst h5
        refine ⟨rfl, rfl, ?_⟩
        rw [isTerminated_of_terminated _ msgs2 rfl]
      · rw [isTerminated_any_neg s msgs hb hm hc] at h
        injection h with h1 h2
        injection h1 with h3
        injection h3 with h4 h5
        cases h4
    | ALL =>
      by_cases hc : s.words_dict.length ≤ numReached s.words_dict (updateCounts s.case_sensitive msgs s.words_dict s.word_count)
      · rw [isTerminated_all_pos s msgs hb hm hc] at h
        injection h with h1 h2
        injection h1 with h3
        injection h3 with h4 h5
        subst h2
        subst h5
        refine ⟨rfl, rfl, ?_⟩
        rw [isTerminated_of_terminated _ msgs2 rfl]
      · rw [isTerminated_all_neg s msgs hb hm hc] at h
        injection h with h1 h2
        injection h1 with h3
        injection h3 with h4 h5
        cases h4
    | OTHER n =>
      rw [isTerminated_other s msgs n hb hm] at h
      injection h with h1 h2
      cases h1

/-- C4 witness: after "a" terminates an ANY-terminator, a further call with
no messages returns the same `(true, reason)` and the same state. -/
theorem latch_idempotent_witness :
    isTerminated (initState [("a", 1)] false TerminationMode.ANY) [⟨"a"⟩] =
      (Except.ok (true, some "Word `a` appears 1 times in response which has reached termination threshold 1."),
       { words_dict := [("a", 1)], case_sensitive := false, mode := TerminationMode.ANY,
         word_count := [("a", 1)], terminated := true,
         termination_reason := some "Word `a` appears 1 times in response which has reached termination threshold 1." }) ∧
    isTerminated
      { words_dict := [("a", 1)], case_sensitive := false, mode := TerminationMode.ANY,
        word_count := [("a", 1)], terminated := true,
        termination_reason := some "Word `a` appears 1 times in response which has reached termination threshold 1." } [] =
      (Except.ok (true, some "Word `a` appears 1 times in response which has reached termination threshold 1."),
       { words_dict := [("a", 1)], case_sensitive := false, mode := TerminationMode.ANY,
         word_count := [("a", 1)], terminated := true,
         termination_reason := some "Word `a` appears 1 times in response which has reached termination threshold 1." }) := by
  refine ⟨rfl, ?_⟩
  exact (latch_idempotent (initState [("a", 1)] false TerminationMode.ANY) _ [⟨"a"⟩] []
    (some "Word `a` appears 1 times in response which has reached termination threshold 1.") rfl).2.2

/-- C5: construction fails immediately when the watch specification is
empty, and when some threshold is ≤ 0 — naming the first offending word
and its value — and succeeds (for any mode) on a non-empty specification
whose thresholds are all positive. -/
theorem construction_validation (words : List (String × Int)) (cs : Bool)
    (m : TerminationMode) :
    mkTerminator [] cs m = Except.error "`words_dict` cannot be empty" ∧
    (∀ (pre post : List (String × Int)) (w : String) (t : Int),
        words = pre ++ (w, t) :: post → (∀ p ∈ pre, 0 < p.2) → t ≤ 0 →
        mkTerminator words cs m =
          Except.error ("Threshold for word `" ++ w ++ "` should be larger than 0, got `" ++
            toString t ++ "`")) ∧
    (words ≠ [] → (∀ p ∈ words, 0 < p.2) →
        mkTerminator words cs m = Except.ok (initState words cs m)) := by
  refine ⟨rfl, ?_, mkTerminator_ok_of_valid words cs m⟩
  intro pre post w t hsplit hpre ht
  subst hsplit
  have hlen : ¬ (pre ++ (w, t) :: post).length = 0 := by simp
  simp only [mkTerminator, validateMsg, if_neg hlen,
    firstBadThreshold_append pre w t post hpre ht]

/-- C5 witness: the empty dict fails; `{"ok": 1, "bad": 0}` fails naming
"bad" and 0; `{"a": 2}` succeeds even in ALL mode. -/
theorem construction_validation_witness :
    mkTerminator [] false TerminationMode.ANY =
      Except.error "`words_dict` cannot be empty" ∧
    mkTerminator [("ok", 1), ("bad", 0)] false TerminationMode.ANY =
      Except.error "Threshold for word `bad` should be larger than 0, got `0`" ∧
    mkTerminator [("a", 2)] true TerminationMode.ALL =
      Except.ok (initState [("a", 2)] true TerminationMode.ALL) := by
  refine ⟨(construction_validation [] false TerminationMode.ANY).1, ?_, ?_⟩
  · exact (construction_validation [("ok", 1), ("bad", 0)] false TerminationMode.ANY).2.1
      [("ok", 1)] [] "bad" 0 rfl (by decide) (by decide)
  · exact (construction_validation [("a", 2)] true TerminationMode.ALL).2.2
      (by decide) (by decide)

/-- C6: a mode other than ANY/ALL raises the unsupported-mode error at
evaluation time (construction accepts it), and even then the running
counters have already been updated — counter mutation is unconditional in
every non-latched call — while the latch stays unset. -/
theorem unsupported_mode_spec (s : TerminatorState) (msgs : List BaseMessage)
    (n : String) (hnt : s.terminated = false) :
    (isTerminated s msgs).2.word_count =
        updateCounts s.case_sensitive msgs s.words_dict s.word_count ∧
    (s.mode = TerminationMode.OTHER n →
      isTerminated s msgs =
        (Except.error ("Unsupported termination mode `" ++ n ++ "`"),
         { s with word_count := updateCounts s.case_sensitive msgs s.words_dict s.word_count }) ∧
      (isTerminated s msgs).2.terminated = false ∧
      (isTerminated s msgs).2.termination_reason = s.termination_reason) ∧
    (∀ (words : List (String × Int)) (cs : Bool), words ≠ [] →
        (∀ p ∈ words, 0 < p.2) →
        mkTerminator words cs (TerminationMode.OTHER n) =
          Except.ok (initState words cs (TerminationMode.OTHER n))) := by
  refine ⟨isTerminated_word_count s msgs hnt, ?_, ?_⟩
  · intro hm
    rw [isTerminated_other s msgs n hnt hm]
    exact ⟨rfl, hnt, rfl⟩
  · intro words cs hne hpos
    exact mkTerminator_ok_of_valid words cs (TerminationMode.OTHER n) hne hpos

/-- C6 witness: mode "INVALID" constructs fine, then a call with "a" raises
the unsupported-mode error with the counter already updated and the latch
unset. -/
theorem unsupported_mode_spec_witness :
    mkTerminator [("a", 1)] false (TerminationMode.OTHER "INVALID") =
      Except.ok (initState [("a", 1)] false (TerminationMode.OTHER "INVALID")) ∧
    isTerminated (initState [("a", 1)] false (TerminationMode.OTHER "INVALID")) [⟨"a"⟩] =
      (Except.error "Unsupported termination mode `INVALID`",
       { words_dict := [("a", 1)], case_sensitive := false,
         mode := TerminationMode.OTHER "INVALID", word_count := [("a", 1)],
         terminated := false, termination_reason := none }) := by
  have h := unsupported_mode_spec (initState [("a", 1)] false (TerminationMode.OTHER "INVALID"))
    [⟨"a"⟩] "INVALID" rfl
  refine ⟨h.2.2 [("a", 1)] false (by decide) (by decide), ?_⟩
  rw [(h.2.1 rfl).1]
  rfl

/-- C8: `reset` clears the latch to `(false, none)` and the counters to the
empty (all-zero) dict, changes nothing else, is idempotent, is a no-op on a
fresh state, and produces exactly the freshly-constructed state for the
same configuration. -/
theorem reset_spec (s : TerminatorState) :
    (reset s).terminated = false ∧
    (reset s).termination_reason = none ∧
    (reset s).word_count = [] ∧
    (∀ w, countOf (reset s).word_count w = 0) ∧
    (reset s).words_dict = s.words_dict ∧
    (reset s).case_sensitive = s.case_sensitive ∧
    (reset s).mode = s.mode ∧
    reset (reset s) = reset s ∧
    reset (initState s.words_dict s.case_sensitive s.mode) =
      initState s.words_dict s.case_sensitive s.mode ∧
    reset s = initState s.words_dict s.case_sensitive s.mode := by
  exact ⟨rfl, rfl, rfl, fun w => rfl, rfl, rfl, rfl, rfl, rfl, reset_eq_initState s⟩

/-- C1: in ANY mode a non-latched call first updates the counters, then —
if at least one watched word has reached its threshold — latches
`terminated = true` with the newline-joined reason strings of exactly the
currently-reached words and returns `(true, that reason)`; otherwise it
returns `(false, none)` and the latch stays unset. -/
theorem any_mode_spec (s : TerminatorState) (msgs : List BaseMessage)
    (counts : List (String × Nat))
    (hnt : s.terminated = false) (hnr : s.termination_reason = none)
    (hm : s.mode = TerminationMode.ANY)
    (hwn : (s.words_dict.map Prod.fst).Nodup)
    (hpos : ∀ p ∈ s.words_dict, 0 < p.2)
    (hcn : (s.word_count.map Prod.fst).Nodup)
    (hc : counts = updateCounts s.case_sensitive msgs s.words_dict s.word_count) :
    (isTerminated s msgs).2.word_count = counts ∧
    ((∃ p ∈ s.words_dict, (p.2 : Int) ≤ (countOf counts p.1 : Int)) →
      isTerminated s msgs =
        (Except.ok (true, some (joinSep "\n" (reachedReasons s.words_dict counts))),
         { s with word_count := counts, terminated := true,
                  termination_reason := some (joinSep "\n" (reachedReasons s.words_dict counts)) })) ∧
    ((¬ ∃ p ∈ s.words_dict, (p.2 : Int) ≤ (countOf counts p.1 : Int)) →
      isTerminated s msgs = (Except.ok (false, none), { s with word_count := counts })) ∧
    (∀ p ∈ s.words_dict, (p.2 : Int) ≤ (countOf counts p.1 : Int) →
      reasonStr p.1 (countOf counts p.1) p.2 ∈ reachedReasons s.words_dict counts) ∧
    (∀ rs ∈ reachedReasons s.words_dict counts, ∃ p ∈ s.words_dict,
      (p.2 : Int) ≤ (countOf counts p.1 : Int) ∧
        rs = reasonStr p.1 (countOf counts p.1) p.2) := by
  subst hc
  have hcn2 : ((updateCounts s.case_sensitive msgs s.words_dict s.word_count).map Prod.fst).Nodup :=
    nodup_updateCounts s.case_sensitive msgs s.words_dict s.word_count hcn
  have hiff := reachedReasons_ne_nil_iff s.words_dict
    (updateCounts s.case_sensitive msgs s.words_dict s.word_count) hwn hcn2 hpos
  refine ⟨isTerminated_word_count s msgs hnt, ?_, ?_, ?_, ?_⟩
  · intro hex
    have hlen : 0 < numReached s.words_dict (updateCounts s.case_sensitive msgs s.words_dict s.word_count) :=
      List.length_pos.2 (hiff.2 hex)
    exact isTerminated_any_pos s msgs hnt hm hlen
  · intro hnex
    have hne : ¬ 0 < numReached s.words_dict (updateCounts s.case_sensitive msgs s.words_dict s.word_count) := by
      intro hlen
      exact hnex (hiff.1 (List.length_pos.1 hlen))
    rw [isTerminated_any_neg s msgs hnt hm hne, hnr]
  · intro p hp hle
    obtain ⟨a, b⟩ := p
    have hlook : lookupDict s.words_dict a = some b :=
      lookupDict_eq_some_of_mem s.words_dict a b hwn hp
    have hbpos : 0 < b := hpos (a, b) hp
    have hcnt : 0 < countOf (updateCounts s.case_sensitive msgs s.words_dict s.word_count) a := by
      simp only at hle
      omega
    have hmemk : a ∈ (updateCounts s.case_sensitive msgs s.words_dict s.word_count).map Prod.fst := by
      by_contra hn
      rw [countOf_eq_zero_of_notMem _ a hn] at hcnt
      omega
    exact reasonStr_mem_reachedReasons _ s.words_dict a _ b
      (mem_of_mem_keys _ a hmemk) hlook (by simpa using hle)
  · intro rs hrs
    obtain ⟨w, v, thr, h1, h2, h3, h4⟩ :=
      exists_of_mem_reachedReasons _ s.words_dict rs hrs
    have hcv : countOf (updateCounts s.case_sensitive msgs s.words_dict s.word_count) w = v :=
      countOf_eq_of_mem _ w v hcn2 h1
    refine ⟨(w, thr), mem_of_lookupDict_eq_some s.words_dict w thr h2, ?_, ?_⟩
    · simp only [hcv]
      exact h3
    · rw [hcv]
      exact h4

/-- C1 witness: "bye" with threshold 2 and one prior sighting; the message
"bye!" pushes the counter to 2, so the call latches with the expected
reason. -/
theorem any_mode_spec_witness :
    (∃ p ∈ [("bye", (2 : Int))], (p.2 : Int) ≤ (countOf [("bye", 2)] p.1 : Int)) ∧
    isTerminated
      { words_dict := [("bye", 2)], case_sensitive := false, mode := TerminationMode.ANY,
        word_count := [("bye", 1)], terminated := false, termination_reason := none }
      [⟨"bye!"⟩] =
      (Except.ok (true, some "Word `bye` appears 2 times in response which has reached termination threshold 2."),
       { words_dict := [("bye", 2)], case_sensitive := false, mode := TerminationMode.ANY,
         word_count := [("bye", 2)], terminated := true,
         termination_reason := some "Word `bye` appears 2 times in response which has reached termination threshold 2." }) := by
  refine ⟨by decide, ?_⟩
  rw [(any_mode_spec
    { words_dict := [("bye", 2)], case_sensitive := false, mode := TerminationMode.ANY,
      word_count := [("bye", 1)], terminated := false, termination_reason := none }
    [⟨"bye!"⟩] [("bye", 2)] rfl rfl rfl (by decide) (by decide) (by decide) rfl).2.1
    (by decide)]
  rfl

/-- C2: in ALL mode a non-latched call latches (with the joined reasons for
all reached words) exactly when, after the counter update, every watched
word has reached its threshold; while at least one is below, it returns
`(false, none)` and the latch stays unset. -/
theorem all_mode_spec (s : TerminatorState) (msgs : List BaseMessage)
    (counts : List (String × Nat))
    (hnt : s.terminated = false) (hnr : s.termination_reason = none)
    (hm : s.mode = TerminationMode.ALL)
    (hwn : (s.words_dict.map Prod.fst).Nodup)
    (hpos : ∀ p ∈ s.words_dict, 0 < p.2)
    (hcn : (s.word_count.map Prod.fst).Nodup)
    (hcs : ∀ q ∈ s.word_count, q.1 ∈ s.words_dict.map Prod.fst)
    (hc : counts = updateCounts s.case_sensitive msgs s.words_dict s.word_count) :
    (isTerminated s msgs).2.word_count = counts ∧
    ((∀ p ∈ s.words_dict, (p.2 : Int) ≤ (countOf counts p.1 : Int)) →
      isTerminated s msgs =
        (Except.ok (true, some (joinSep "\n" (reachedReasons s.words_dict counts))),
         { s with word_count := counts, terminated := true,
                  termination_reason := some (joinSep "\n" (reachedReasons s.words_dict counts)) })) ∧
    ((∃ p ∈ s.words_dict, (countOf counts p.1 : Int) < p.2) →
      isTerminated s msgs = (Except.ok (false, none), { s with word_count := counts })) := by
  subst hc
  have hcn2 : ((updateCounts s.case_sensitive msgs s.words_dict s.word_count).map Prod.fst).Nodup :=
    nodup_updateCounts s.case_sensitive msgs s.words_dict s.word_count hcn
  have hsub2 : ∀ q ∈ updateCounts s.case_sensitive msgs s.words_dict s.word_count,
      q.1 ∈ s.words_dict.map Prod.fst := by
    intro q hq
    have hk : q.1 ∈ (updateCounts s.case_sensitive msgs s.words_dict s.word_count).map Prod.fst :=
      List.mem_map_of_mem Prod.fst hq
    rcases mem_keys_updateCounts s.case_sensitive msgs s.words_dict s.word_count q.1 hk with hk2 | hk2
    · obtain ⟨q2, hq2, he⟩ := List.mem_map.1 hk2
      rw [← he]
      exact hcs q2 hq2
    · exact hk2
  have hiff := numReached_eq_words_iff s.words_dict
    (updateCounts s.case_sensitive msgs s.words_dict s.word_count) hwn hcn2 hsub2 hpos
  refine ⟨isTerminated_word_count s msgs hnt, ?_, ?_⟩
  · intro hall
    exact isTerminated_all_pos s msgs hnt hm (hiff.2 hall)
  · rintro ⟨p, hp, hlt⟩
    have hne : ¬ s.words_dict.length ≤ numReached s.words_dict (updateCounts s.case_sensitive msgs s.words_dict s.word_count) := by
      intro hlen
      have := hiff.1 hlen p hp
      omega
    rw [isTerminated_all_neg s msgs hnt hm hne, hnr]

/-- C2 witness: spec `{"bye": 1, "stop": 1}` in ALL mode with "bye" already
seen; a message containing "stop" reaches both words and the reason lists
both. -/
theorem all_mode_spec_witness :
    (∀ p ∈ [("bye", (1 : Int)), ("stop", 1)],
      (p.2 : Int) ≤ (countOf [("bye", 1), ("stop", 1)] p.1 : Int)) ∧
    isTerminated
      { words_dict := [("bye", 1), ("stop", 1)], case_sensitive := false,
        mode := TerminationMode.ALL, word_count := [("bye", 1)],
        terminated := false, termination_reason := none }
      [⟨"stop"⟩] =
      (Except.ok (true, some "Word `bye` appears 1 times in response which has reached termination threshold 1.\nWord `stop` appears 1 times in response which has reached termination threshold 1."),
       { words_dict := [("bye", 1), ("stop", 1)], case_sensitive := false,
         mode := TerminationMode.ALL, word_count := [("bye", 1), ("stop", 1)],
         terminated := true,
         termination_reason := some "Word `bye` appears 1 times in response which has reached termination threshold 1.\nWord `stop` appears 1 times in response which has reached termination threshold 1." }) := by
  refine ⟨by decide, ?_⟩
  rw [(all_mode_spec
    { words_dict := [("bye", 1), ("stop", 1)], case_sensitive := false,
      mode := TerminationMode.ALL, word_count := [("bye", 1)],
      terminated := false, termination_reason := none }
    [⟨"stop"⟩] [("bye", 1), ("stop", 1)] rfl rfl rfl (by decide) (by decide)
    (by decide) (by decide) rfl).2.1 (by decide)]
  rfl

/-- C9: on every reachable state with mode ANY or ALL, a call with the
empty message sequence is a pure pass-through — no counter changes, the
latch is untouched, and the current `(terminated, reason)` pair is
returned. -/
theorem empty_messages_passthrough (s : TerminatorState)
    (hr : Reachable s)
    (hm : s.mode = TerminationMode.ANY ∨ s.mode = TerminationMode.ALL) :
    isTerminated s [] = (Except.ok (s.terminated, s.termination_reason), s) := by
  have inv := stateInv_of_reachable s hr
  obtain ⟨wd, csf, md, wc, tm, tr⟩ := s
  cases tm with
  | true => exact isTerminated_of_terminated _ [] rfl
  | false =>
    have htr : tr = none := inv.activeReason rfl
    subst htr
    have hupd : updateCounts csf [] wd wc = wc := updateCounts_nil_msgs csf wd wc
    rcases hm with hm | hm
    · have hne : ¬ 0 < numReached wd (updateCounts csf [] wd wc) := by
        rw [hupd]
        intro hlen
        obtain ⟨p, hp, hle⟩ := (reachedReasons_ne_nil_iff wd wc
          inv.wordsNodup inv.cntNodup inv.thrPos).1 (List.length_pos.1 hlen)
        have h2 : (countOf wc p.1 : Int) < p.2 := inv.activeAny rfl hm p hp
        omega
      rw [isTerminated_any_neg _ [] rfl hm hne, hupd]
    · have hne : ¬ wd.length ≤ numReached wd (updateCounts csf [] wd wc) := by
        rw [hupd]
        intro hlen
        obtain ⟨p, hp, hlt⟩ := inv.activeAll rfl hm
        have hlt2 : (countOf wc p.1 : Int) < p.2 := hlt
        have := (numReached_eq_words_iff wd wc
          inv.wordsNodup inv.cntNodup inv.cntSub inv.thrPos).1 hlen p hp
        omega
      rw [isTerminated_all_neg _ [] rfl hm hne, hupd]

/-- C9 witness: a freshly constructed ANY-terminator passes an empty call
through unchanged. -/
theorem empty_messages_passthrough_witness :
    ((initState [("a", 1)] false TerminationMode.ANY).mode = TerminationMode.ANY ∨
      (initState [("a", 1)] false TerminationMode.ANY).mode = TerminationMode.ALL) ∧
    isTerminated (initState [("a", 1)] false TerminationMode.ANY) [] =
      (Except.ok (false, none), initState [("a", 1)] false TerminationMode.ANY) := by
  refine ⟨Or.inl rfl, ?_⟩
  exact empty_messages_passthrough (initState [("a", 1)] false TerminationMode.ANY)
    (Reachable.init [("a", 1)] false TerminationMode.ANY _ (by decide) rfl)
    (Or.inl rfl)

/-- C10: invariant of every reachable state — while the latch is unset the
aggregation condition fails for the current counters (under ANY no watched
word has reached its threshold; under ALL some watched word is below), and
the reason is `none`; once the latch is set the stored reason is a
non-empty string. -/
theorem reachable_invariant (s : TerminatorState) (hr : Reachable s) :
    (s.terminated = false → s.termination_reason = none ∧
      (s.mode = TerminationMode.ANY →
        ∀ p ∈ s.words_dict, (countOf s.word_count p.1 : Int) < p.2) ∧
      (s.mode = TerminationMode.ALL →
        ∃ p ∈ s.words_dict, (countOf s.word_count p.1 : Int) < p.2)) ∧
    (s.terminated = true → ∃ r, s.termination_reason = some r ∧ r ≠ "") := by
  have inv := stateInv_of_reachable s hr
  exact ⟨fun hb => ⟨inv.activeReason hb, inv.activeAny hb, inv.activeAll hb⟩, inv.latched⟩

/-- C10 witness: the invariant instantiated at a freshly constructed
ANY-terminator. -/
theorem reachable_invariant_witness :
    (initState [("a", 1)] false TerminationMode.ANY).terminated = false ∧
    (initState [("a", 1)] false TerminationMode.ANY).termination_reason = none ∧
    ∀ p ∈ (initState [("a", 1)] false TerminationMode.ANY).words_dict,
      (countOf (initState [("a", 1)] false TerminationMode.ANY).word_count p.1 : Int) < p.2 := by
  have h := (reachable_invariant (initState [("a", 1)] false TerminationMode.ANY)
    (Reachable.init [("a", 1)] false TerminationMode.ANY _ (by decide) rfl)).1 rfl
  exact ⟨rfl, h.1, h.2.1 rfl⟩
